import Mathlib

/-!
Shallow embedding of the TextGrid-to-ASS karaoke converter (src/main.py).
Times are modelled as rationals; Python `int()` on a float is modelled by
truncation toward zero (`pyint`), Python `%` on floats by `pymod`, Python
substring containment (`in`) by `contains_sub`, and Python `str.strip` by
`String.trim`.
-/

namespace TGA

/-- A raw word interval from the source tier, the Python tuple
`(start, end, text)`.  The source field named `end` is called `stop` here
because `end` is a Lean keyword. -/
structure Interval where
  start : ℚ
  stop : ℚ
  text : String
deriving DecidableEq

/-- A filtered or phrase word, the Python tuple `(start, end, text, has_marker)`. -/
structure AnnotatedWord where
  start : ℚ
  stop : ℚ
  text : String
  has_marker : Bool
deriving DecidableEq

/-- A phrase, the Python tuple `(start_time, end_time, word_list)`. -/
structure Phrase where
  start : ℚ
  stop : ℚ
  words : List AnnotatedWord
deriving DecidableEq

/-- Python `int(x)` on a float: truncation toward zero. -/
def pyint (q : ℚ) : ℤ := if 0 ≤ q then ⌊q⌋ else ⌈q⌉

/-- Python `x % y` on floats (for `y ≠ 0`): `x - y * floor (x / y)`. -/
def pymod (x y : ℚ) : ℚ := x - y * ⌊x / y⌋

/-- Python `pat in text` (substring containment). -/
def contains_sub (text pat : String) : Bool :=
  pat == "" || decide (2 ≤ (text.splitOn pat).length)

/-- The filter on line 104 of src/main.py: an interval is kept unless its
stripped text is empty or its (raw) text equals the silence token. -/
def keep_interval (text : String) : Bool :=
  !(text.trim == "") && !(text == "<p:>")

/-- Lines 101-114 of src/main.py: build `filtered_intervals`, annotating each
kept interval with `has_marker = phrase_marker in text`. -/
def filter_intervals (phrase_marker : String) (intervals : List Interval) :
    List AnnotatedWord :=
  intervals.filterMap (fun iv =>
    if keep_interval iv.text then
      some ⟨iv.start, iv.stop, iv.text, contains_sub iv.text phrase_marker⟩
    else none)

/-- Line 141/146 of src/main.py: `text.replace(phrase_marker, " ").strip()`. -/
def clean_text (phrase_marker text : String) : String :=
  (text.replace phrase_marker " ").trim

/-- The word as stored into a phrase: marker replaced by a space, trimmed. -/
def clean_word (phrase_marker : String) (w : AnnotatedWord) : AnnotatedWord :=
  ⟨w.start, w.stop, clean_text phrase_marker w.text, w.has_marker⟩

/-- The mutable loop state of `group_into_phrases` (lines 95-99 of
src/main.py).  In the source `current_end` is initialized to `None`, but it is
only ever read after having been set (a phrase is only pushed when
`current_words` is non-empty, and every word processed sets `current_end`),
so it is carried here as a plain rational initialized to 0. -/
structure SegState where
  phrases : List Phrase
  current_words : List AnnotatedWord
  current_start : Option ℚ
  current_end : ℚ
  last_phrase_end : ℚ
deriving DecidableEq

/-- The initial segmentation state (lines 95-99 of src/main.py). -/
def init_state : SegState := ⟨[], [], none, 0, 0⟩

/-- One iteration of the loop on lines 116-147 of src/main.py.  The no-op
assignment on lines 134-136 of the source (rewriting the last accumulated
word to the identical tuple) is omitted. -/
def segStep (phrase_marker : String) (min_phrase_gap target_duration : ℚ)
    (st : SegState) (w : AnnotatedWord) : SegState :=
  let current_start := st.current_start.getD w.start
  let phrase_marker_condition :=
    w.has_marker = true ∧ w.start - st.last_phrase_end ≥ min_phrase_gap ∧
      st.current_words ≠ []
  let duration_condition :=
    w.stop - current_start > target_duration ∧ st.current_words ≠ []
  if phrase_marker_condition ∨ duration_condition then
    let closed : List Phrase × ℚ :=
      if st.current_words ≠ [] then
        (st.phrases ++ [⟨current_start, st.current_end, st.current_words⟩],
         st.current_end)
      else (st.phrases, st.last_phrase_end)
    { phrases := closed.1
      current_words := [clean_word phrase_marker w]
      current_start := some w.start
      current_end := w.stop
      last_phrase_end := closed.2 }
  else
    { phrases := st.phrases
      current_words := st.current_words ++ [clean_word phrase_marker w]
      current_start := some current_start
      current_end := w.stop
      last_phrase_end := st.last_phrase_end }

/-- Lines 149-151 of src/main.py: after the loop, push the remaining
accumulator as a final phrase if it is non-empty (`if current_words and
current_start is not None`). -/
def seg_flush (st : SegState) : List Phrase :=
  if st.current_words ≠ [] ∧ st.current_start.isSome = true then
    st.phrases ++ [⟨st.current_start.getD 0, st.current_end, st.current_words⟩]
  else
    st.phrases

/-- Lines 95-153 of src/main.py: `group_into_phrases`. -/
def group_into_phrases (intervals : List Interval) (phrase_marker : String)
    (min_phrase_gap : ℚ) (target_duration : ℚ) : List Phrase :=
  seg_flush ((filter_intervals phrase_marker intervals).foldl
    (segStep phrase_marker min_phrase_gap target_duration) init_state)

/-- Python `f"{n:02d}"` for width 2: zero-pad the decimal rendering to two
characters. -/
def pad2 (n : ℤ) : String :=
  let s := toString n
  if s.length < 2 then "0" ++ s else s

/-- Lines 64-79 of src/main.py: `format_time`. -/
def format_time (seconds : ℚ) : String :=
  let hours := pyint (seconds / 3600)
  let minutes := pyint (pymod seconds 3600 / 60)
  let seconds1 := pymod seconds 60
  let centiseconds := pyint ((seconds1 - ((pyint seconds1 : ℤ) : ℚ)) * 100)
  toString hours ++ ":" ++ pad2 minutes ++ ":" ++ pad2 (pyint seconds1) ++
    "." ++ pad2 centiseconds

/-- Lines 155-183 of src/main.py: `create_karaoke_line`, a fold over
`enumerate(words)` accumulating the result string. -/
def create_karaoke_line (words : List AnnotatedWord) : String :=
  words.enum.foldl
    (fun result p =>
      result ++
        (if 0 < p.1 ∧ p.2.has_marker = true then " " else "") ++
        "\x7b\\K" ++ toString (pyint ((p.2.stop - p.2.start) * 100)) ++ "\x7d" ++
        p.2.text ++ " ")
    ""

/-- Concatenation of the word lists of a list of phrases, in order. -/
def phrase_words_flat (phs : List Phrase) : List AnnotatedWord :=
  (phs.map Phrase.words).flatten

/-- Lines 226-241 of src/main.py: the dialogue event emitted for one phrase. -/
def dialogue_event (style_name : String) (shift_time : ℚ) (ph : Phrase) :
    String :=
  let shifted_start := max 0 (ph.start + shift_time)
  let start_time := format_time shifted_start
  let end_time := format_time ph.stop
  let karaoke_text :=
    "\x7b\\K" ++ toString (pyint (shift_time * (-100))) ++ "\x7d" ++
      create_karaoke_line ph.words
  "Dialogue: 0," ++ start_time ++ "," ++ end_time ++ "," ++ style_name ++
    ",,0,0,0,," ++ karaoke_text

/-! ### Helper lemmas for the segmentation loop -/

theorem segStep_flat (phrase_marker : String) (min_phrase_gap target_duration : ℚ)
    (st : SegState) (w : AnnotatedWord) :
    phrase_words_flat (segStep phrase_marker min_phrase_gap target_duration st w).phrases ++
      (segStep phrase_marker min_phrase_gap target_duration st w).current_words =
    phrase_words_flat st.phrases ++ st.current_words ++ [clean_word phrase_marker w] := by
  unfold segStep
  by_cases hmain :
      (w.has_marker = true ∧ w.start - st.last_phrase_end ≥ min_phrase_gap ∧
        st.current_words ≠ []) ∨
      (w.stop - (st.current_start.getD w.start) > target_duration ∧ st.current_words ≠ [])
  · simp only [hmain, if_pos]
    by_cases hcw : st.current_words ≠ []
    · simp [hcw, phrase_words_flat, List.flatten_append]
    · simp only [ne_eq, not_not] at hcw
      simp [hcw, phrase_words_flat]
  · simp [hmain, phrase_words_flat, List.append_assoc]

theorem segLoop_flat (phrase_marker : String) (min_phrase_gap target_duration : ℚ) :
    ∀ (ws : List AnnotatedWord) (st : SegState),
    phrase_words_flat
        (ws.foldl (segStep phrase_marker min_phrase_gap target_duration) st).phrases ++
      (ws.foldl (segStep phrase_marker min_phrase_gap target_duration) st).current_words =
    phrase_words_flat st.phrases ++ st.current_words ++ ws.map (clean_word phrase_marker)
  | [], st => by simp
  | w :: ws, st => by
    rw [List.foldl_cons, segLoop_flat phrase_marker min_phrase_gap target_duration ws,
      segStep_flat]
    simp [List.append_assoc]

theorem segStep_start_isSome (phrase_marker : String)
    (min_phrase_gap target_duration : ℚ) (st : SegState) (w : AnnotatedWord) :
    (segStep phrase_marker min_phrase_gap target_duration st w).current_start.isSome = true := by
  unfold segStep
  by_cases hmain :
      (w.has_marker = true ∧ w.start - st.last_phrase_end ≥ min_phrase_gap ∧
        st.current_words ≠ []) ∨
      (w.stop - (st.current_start.getD w.start) > target_duration ∧ st.current_words ≠ []) <;>
    simp [hmain]

theorem segLoop_start_isSome (phrase_marker : String)
    (min_phrase_gap target_duration : ℚ) :
    ∀ (ws : List AnnotatedWord) (st : SegState),
    (st.current_words ≠ [] → st.current_start.isSome = true) →
    ((ws.foldl (segStep phrase_marker min_phrase_gap target_duration) st).current_words ≠ [] →
      (ws.foldl (segStep phrase_marker min_phrase_gap target_duration)
        st).current_start.isSome = true)
  | [], _, h => h
  | w :: ws, st, _ => by
    rw [List.foldl_cons]
    exact segLoop_start_isSome phrase_marker min_phrase_gap target_duration ws _
      (fun _ => segStep_start_isSome phrase_marker min_phrase_gap target_duration st w)

theorem flush_flat (st : SegState)
    (h : st.current_words ≠ [] → st.current_start.isSome = true) :
    phrase_words_flat (seg_flush st) =
      phrase_words_flat st.phrases ++ st.current_words := by
  unfold seg_flush
  by_cases hcw : st.current_words ≠ []
  · simp [hcw, h hcw, phrase_words_flat, List.flatten_append]
  · simp only [ne_eq, not_not] at hcw
    simp [hcw, phrase_words_flat]

/-- Claim C1: for every input interval list (in particular every ordered,
non-empty one) the phrases returned by `group_into_phrases` contain exactly
the filtered input words, each exactly once, in the original input order:
concatenating the phrases' word lists in output order yields the filtered
input sequence (each word annotated and marker-stripped, as stored in
phrases) with no duplication, no drop, and no reorder. -/
theorem seg_partitions_filtered_input (intervals : List Interval)
    (phrase_marker : String) (min_phrase_gap target_duration : ℚ) :
    phrase_words_flat
        (group_into_phrases intervals phrase_marker min_phrase_gap target_duration) =
      (filter_intervals phrase_marker intervals).map (clean_word phrase_marker) := by
  have hflat := segLoop_flat phrase_marker min_phrase_gap target_duration
    (filter_intervals phrase_marker intervals) init_state
  have hsome := segLoop_start_isSome phrase_marker min_phrase_gap target_duration
    (filter_intervals phrase_marker intervals) init_state (by simp [init_state])
  unfold group_into_phrases
  rw [flush_flat _ hsome, hflat]
  simp [init_state, phrase_words_flat]

/-! ### Phrase duration bound (claim C2) -/

/-- A phrase either fits within the target duration, or is a single-word
phrase spanning exactly its word. -/
def GoodPhrase (target_duration : ℚ) (ph : Phrase) : Prop :=
  ph.stop - ph.start ≤ target_duration ∨
    ∃ w, ph.words = [w] ∧ ph.start = w.start ∧ ph.stop = w.stop

/-- Invariant of the segmentation loop state: all completed phrases are good,
and the accumulator's bookkeeping fields track its word list. -/
def SegInv (target_duration : ℚ) (st : SegState) : Prop :=
  (∀ ph ∈ st.phrases, GoodPhrase target_duration ph) ∧
  (∀ w0, st.current_words.head? = some w0 →
    st.current_start = some w0.start ∧
    (∀ wl, st.current_words.getLast? = some wl → st.current_end = wl.stop) ∧
    (2 ≤ st.current_words.length → st.current_end - w0.start ≤ target_duration)) ∧
  (st.current_words = [] → st.current_start = none)

theorem seginv_init (target_duration : ℚ) : SegInv target_duration init_state := by
  refine ⟨by simp [init_state], ?_, by simp [init_state]⟩
  intro w0 h
  simp [init_state] at h

theorem acc_phrase_good (target_duration : ℚ) (st : SegState) (d : ℚ)
    (hInv : SegInv target_duration st) (hcw : st.current_words ≠ []) :
    GoodPhrase target_duration
      ⟨st.current_start.getD d, st.current_end, st.current_words⟩ := by
  obtain ⟨a, rest, har⟩ := List.exists_cons_of_ne_nil hcw
  obtain ⟨hcs, hend, hlen⟩ := hInv.2.1 a (by rw [har]; rfl)
  cases rest with
  | nil =>
    right
    refine ⟨a, by rw [har], by simp [hcs], ?_⟩
    exact hend a (by rw [har]; rfl)
  | cons b bs =>
    left
    have h2 : 2 ≤ st.current_words.length := by
      rw [har]; simp [Nat.succ_le_succ]
    simpa [hcs] using hlen h2

theorem segStep_inv (phrase_marker : String) (min_phrase_gap target_duration : ℚ)
    (st : SegState) (w : AnnotatedWord) (hInv : SegInv target_duration st) :
    SegInv target_duration (segStep phrase_marker min_phrase_gap target_duration st w) := by
  obtain ⟨hph, hacc, hempty⟩ := hInv
  unfold segStep
  by_cases hmain :
      (w.has_marker = true ∧ w.start - st.last_phrase_end ≥ min_phrase_gap ∧
        st.current_words ≠ []) ∨
      (w.stop - (st.current_start.getD w.start) > target_duration ∧ st.current_words ≠ [])
  · have hcw : st.current_words ≠ [] := by
      rcases hmain with ⟨_, _, h⟩ | ⟨_, h⟩ <;> exact h
    rw [if_pos hmain, if_pos hcw]
    refine ⟨?_, ?_, by simp⟩
    · intro ph hmem
      dsimp only at hmem
      rcases List.mem_append.1 hmem with hold | hnew
      · exact hph ph hold
      · rw [List.mem_singleton.1 hnew]
        exact acc_phrase_good target_duration st w.start ⟨hph, hacc, hempty⟩ hcw
    · intro w0 h
      dsimp only at h ⊢
      simp only [List.head?_cons, Option.some.injEq] at h
      subst h
      refine ⟨rfl, ?_, by simp⟩
      intro wl hl
      simp only [List.getLast?_singleton, Option.some.injEq] at hl
      subst hl
      rfl
  · rw [if_neg hmain]
    have hdc : ¬(w.stop - (st.current_start.getD w.start) > target_duration ∧
        st.current_words ≠ []) := fun h => hmain (Or.inr h)
    cases hcwnil : st.current_words with
    | nil =>
      have hcs0 : st.current_start = none := hempty hcwnil
      refine ⟨by simpa using hph, ?_, by simp⟩
      intro w0 h
      simp only [List.nil_append, List.head?_cons, Option.some.injEq] at h
      subst h
      refine ⟨by simp [hcs0, clean_word], ?_, by simp⟩
      intro wl hl
      simp only [List.nil_append, List.getLast?_singleton, Option.some.injEq] at hl
      subst hl
      rfl
    | cons a rest =>
      obtain ⟨hcs, hend, hlen⟩ := hacc a (by rw [hcwnil]; rfl)
      refine ⟨by simpa using hph, ?_, by simp⟩
      intro w0 h
      simp only [List.cons_append, List.head?_cons, Option.some.injEq] at h
      subst h
      have hgetd : st.current_start.getD w.start = a.start := by simp [hcs]
      refine ⟨by simp [hgetd], ?_, ?_⟩
      · intro wl hl
        dsimp only at hl ⊢
        rw [List.getLast?_concat] at hl
        simp only [Option.some.injEq] at hl
        subst hl
        rfl
      · intro _
        dsimp only
        have hcwne : st.current_words ≠ [] := by rw [hcwnil]; simp
        have hnot := fun hgt => hdc ⟨hgt, hcwne⟩
        rw [hgetd] at hnot
        exact le_of_not_lt hnot

theorem segLoop_inv (phrase_marker : String) (min_phrase_gap target_duration : ℚ) :
    ∀ (ws : List AnnotatedWord) (st : SegState), SegInv target_duration st →
    SegInv target_duration
      (ws.foldl (segStep phrase_marker min_phrase_gap target_duration) st)
  | [], _, h => h
  | w :: ws, st, h => by
    rw [List.foldl_cons]
    exact segLoop_inv phrase_marker min_phrase_gap target_duration ws _
      (segStep_inv phrase_marker min_phrase_gap target_duration st w h)

theorem seg_flush_good (target_duration : ℚ) (st : SegState)
    (hInv : SegInv target_duration st) :
    ∀ ph ∈ seg_flush st, GoodPhrase target_duration ph := by
  intro ph hmem
  unfold seg_flush at hmem
  by_cases hcond : st.current_words ≠ [] ∧ st.current_start.isSome = true
  · rw [if_pos hcond] at hmem
    rcases List.mem_append.1 hmem with hold | hnew
    · exact hInv.1 ph hold
    · rw [List.mem_singleton.1 hnew]
      exact acc_phrase_good target_duration st 0 hInv hcond.1
  · rw [if_neg hcond] at hmem
    exact hInv.1 ph hmem

/-- Claim C2 (amended): every phrase produced by the segmenter either spans at
most `target_duration`, or is a single-word phrase spanning exactly its one
word (whose own duration may exceed the target by an arbitrary amount; the
word whose arrival triggers a close is never part of the phrase it closes). -/
theorem seg_phrase_duration_bound (intervals : List Interval)
    (phrase_marker : String) (min_phrase_gap target_duration : ℚ) (ph : Phrase)
    (hmem : ph ∈ group_into_phrases intervals phrase_marker min_phrase_gap target_duration) :
    ph.stop - ph.start ≤ target_duration ∨
      ∃ w, ph.words = [w] ∧ ph.start = w.start ∧ ph.stop = w.stop := by
  have hInv := segLoop_inv phrase_marker min_phrase_gap target_duration
    (filter_intervals phrase_marker intervals) init_state (seginv_init target_duration)
  unfold group_into_phrases at hmem
  exact seg_flush_good target_duration _ hInv ph hmem

theorem seg_phrase_duration_bound_witness :
    (⟨0, 1, [⟨0, 1, "hello", false⟩]⟩ : Phrase) ∈
        group_into_phrases [⟨0, 1, "hello"⟩] "<eps>" 2 5 ∧
    ((⟨0, 1, [⟨0, 1, "hello", false⟩]⟩ : Phrase).stop -
        (⟨0, 1, [⟨0, 1, "hello", false⟩]⟩ : Phrase).start ≤ 5 ∨
      ∃ w, (⟨0, 1, [⟨0, 1, "hello", false⟩]⟩ : Phrase).words = [w] ∧
        (⟨0, 1, [⟨0, 1, "hello", false⟩]⟩ : Phrase).start = w.start ∧
        (⟨0, 1, [⟨0, 1, "hello", false⟩]⟩ : Phrase).stop = w.stop) :=
  ⟨by with_unfolding_all decide,
    seg_phrase_duration_bound [⟨0, 1, "hello"⟩] "<eps>" 2 5 _
      (by with_unfolding_all decide)⟩

/-- Claim C2 (counterexample): with words (0,100) and (100,100.5) and
target_duration 5, the first emitted phrase spans 100 seconds, while the word
whose arrival triggered its close (the second word) has duration 0.5; the
phrase exceeds target_duration by far more than that word's span. -/
theorem seg_duration_bound_counterexample :
    (group_into_phrases [⟨0, 100, "a"⟩, ⟨100, 201/2, "b"⟩] "<eps>" 2 5).map
        (fun ph => (ph.start, ph.stop)) = [((0 : ℚ), (100 : ℚ)), (100, 201/2)] ∧
    ¬((100 : ℚ) - 0 ≤ 5 + (201/2 - 100)) := by
  constructor
  · with_unfolding_all decide
  · norm_num

/-- Claim C3: a word with has_marker = true whose start is strictly less than
min_phrase_gap after last_phrase_end never closes the current phrase via the
marker trigger: the step pushes a completed phrase exactly when the duration
trigger (word.end - current_phrase_start > target_duration, with a non-empty
accumulator) independently fires. -/
theorem marker_blocked_within_min_gap (phrase_marker : String)
    (min_phrase_gap target_duration : ℚ) (st : SegState) (w : AnnotatedWord)
    (_hm : w.has_marker = true)
    (hgap : w.start - st.last_phrase_end < min_phrase_gap) :
    (segStep phrase_marker min_phrase_gap target_duration st w).phrases.length >
        st.phrases.length ↔
      (w.stop - st.current_start.getD w.start > target_duration ∧
        st.current_words ≠ []) := by
  unfold segStep
  have hpmc : ¬(w.has_marker = true ∧ w.start - st.last_phrase_end ≥ min_phrase_gap ∧
      st.current_words ≠ []) := by
    rintro ⟨_, hge, _⟩
    exact absurd hge (not_le.2 hgap)
  by_cases hdc : (w.stop - st.current_start.getD w.start > target_duration ∧
      st.current_words ≠ [])
  · rw [if_pos (Or.inr hdc), if_pos hdc.2]
    simp [List.length_append, hdc]
  · have hnot : ¬((w.has_marker = true ∧ w.start - st.last_phrase_end ≥ min_phrase_gap ∧
        st.current_words ≠ []) ∨
        (w.stop - st.current_start.getD w.start > target_duration ∧
          st.current_words ≠ [])) := by
      rintro (h | h)
      · exact hpmc h
      · exact hdc h
    rw [if_neg hnot]
    simp [hdc]

theorem marker_blocked_within_min_gap_witness :
    ((⟨3, 11, "b", true⟩ : AnnotatedWord).has_marker = true ∧
      (⟨3, 11, "b", true⟩ : AnnotatedWord).start -
        (⟨[], [⟨0, 1, "a", false⟩], some 0, 1, 0⟩ : SegState).last_phrase_end < 5) ∧
    ((segStep "<eps>" 5 5 ⟨[], [⟨0, 1, "a", false⟩], some 0, 1, 0⟩
          ⟨3, 11, "b", true⟩).phrases.length >
        (⟨[], [⟨0, 1, "a", false⟩], some 0, 1, 0⟩ : SegState).phrases.length ↔
      ((⟨3, 11, "b", true⟩ : AnnotatedWord).stop -
          ((⟨[], [⟨0, 1, "a", false⟩], some 0, 1, 0⟩ : SegState).current_start.getD
            (⟨3, 11, "b", true⟩ : AnnotatedWord).start) > 5 ∧
        (⟨[], [⟨0, 1, "a", false⟩], some 0, 1, 0⟩ : SegState).current_words ≠ [])) :=
  ⟨⟨rfl, by show (3 : ℚ) - 0 < 5; norm_num⟩,
    marker_blocked_within_min_gap "<eps>" 5 5 _ _ rfl
      (by show (3 : ℚ) - 0 < 5; norm_num)⟩

/-! ### The preprocessing filter (claim C4) -/

/-- Modelled from the spec claim C4 as amended: the preprocessing discards
exactly those intervals whose trimmed text is empty or whose raw, untrimmed
text is exactly the silence token; each retained interval's has_marker flag
is whether the marker occurs in the original, untrimmed text. -/
def filter_intervals_claim (marker : String) (intervals : List Interval) :
    List AnnotatedWord :=
  (intervals.filter (fun iv => !(iv.text.trim == "" || iv.text == "<p:>"))).map
    (fun iv => ⟨iv.start, iv.stop, iv.text, contains_sub iv.text marker⟩)

/-- Claim C4 (amended): the preprocessing keeps an interval iff its trimmed
text is non-empty and its raw (untrimmed) text is not exactly the silence
token, annotating it with has_marker computed on the original text.  The
silence-token comparison is exact string equality on the untrimmed text, so
an interval whose raw text merely trims to the silence token is retained. -/
theorem filter_matches_amended_claim (marker : String) (intervals : List Interval) :
    filter_intervals marker intervals = filter_intervals_claim marker intervals := by
  have hcond : ∀ t : String, keep_interval t = !(t.trim == "" || t == "<p:>") := by
    intro t
    simp [keep_interval, Bool.not_or]
  induction intervals with
  | nil => rfl
  | cons iv ivs ih =>
    unfold filter_intervals filter_intervals_claim at ih ⊢
    simp only [List.filterMap_cons, List.filter_cons]
    rw [hcond iv.text]
    cases hb : (!(iv.text.trim == "" || iv.text == "<p:>")) with
    | true => simp [hb, ih]
    | false => simp [hb, ih]

/-- Claim C4 (counterexample): an interval whose raw text is " <p:> " (which
trims to the silence token but is not exactly it) is retained by the code,
not discarded, and its has_marker flag is false. -/
theorem filter_silence_trim_counterexample :
    filter_intervals "<eps>" [⟨0, 1, " <p:> "⟩] = [⟨0, 1, " <p:> ", false⟩] ∧
    filter_intervals "<eps>" [⟨0, 1, " <p:> "⟩] ≠ [] := by
  with_unfolding_all decide

/-! ### The karaoke encoder (claim C5) -/

theorem pyint_eq_floor (q : ℚ) (h : 0 ≤ q) : pyint q = ⌊q⌋ := if_pos h

/-- One word's emission per claim C5: a highlight tag carrying the floored
centisecond duration, then the word text, then one trailing space. -/
def karaoke_tag_claim (w : AnnotatedWord) : String :=
  "\x7b\\K" ++ toString (⌊(w.stop - w.start) * 100⌋ : ℤ) ++ "\x7d" ++ w.text ++ " "

/-- Modelled from the spec claim C5: the first word is emitted bare; each
later word is preceded by one extra literal space exactly when its
has_marker flag is true; there are no other separators. -/
def karaoke_line_claim (words : List AnnotatedWord) : String :=
  match words with
  | [] => ""
  | w :: rest =>
      karaoke_tag_claim w ++
        String.join (rest.map (fun v =>
          (if v.has_marker = true then " " else "") ++ karaoke_tag_claim v))

theorem str_foldl_append : ∀ (xs : List String) (a : String),
    xs.foldl (· ++ ·) a = a ++ xs.foldl (· ++ ·) ""
  | [], a => by simp
  | x :: xs, a => by
    rw [List.foldl_cons, List.foldl_cons, str_foldl_append xs (a ++ x),
      str_foldl_append xs ("" ++ x)]
    simp [String.append_assoc]

theorem str_join_cons (x : String) (xs : List String) :
    String.join (x :: xs) = x ++ String.join xs := by
  show (x :: xs).foldl (· ++ ·) "" = x ++ xs.foldl (· ++ ·) ""
  rw [List.foldl_cons, str_foldl_append xs ("" ++ x)]
  simp

theorem karaoke_fold_tail (rest : List AnnotatedWord) :
    ∀ (i : ℕ) (a : String), 0 < i → (∀ v ∈ rest, v.start ≤ v.stop) →
    List.foldl
        (fun result p =>
          result ++
            (if 0 < p.1 ∧ p.2.has_marker = true then " " else "") ++
            "\x7b\\K" ++ toString (pyint ((p.2.stop - p.2.start) * 100)) ++ "\x7d" ++
            p.2.text ++ " ")
        a (List.enumFrom i rest) =
      a ++ String.join (rest.map (fun v =>
        (if v.has_marker = true then " " else "") ++ karaoke_tag_claim v)) := by
  induction rest with
  | nil =>
    intro i a _ _
    simp [String.join]
  | cons v vs ih =>
    intro i a hi h
    rw [List.enumFrom_cons, List.foldl_cons]
    rw [ih (i + 1) _ (Nat.succ_pos i) (fun u hu => h u (List.mem_cons_of_mem v hu))]
    have hpy : pyint ((v.stop - v.start) * 100) = ⌊(v.stop - v.start) * 100⌋ :=
      pyint_eq_floor _
        (mul_nonneg (sub_nonneg.2 (h v (List.mem_cons_self v vs))) (by norm_num))
    simp only [List.map_cons, str_join_cons, karaoke_tag_claim, hpy, hi, true_and]
    simp [String.append_assoc]

/-- Claim C5: for every list of annotated words (with well-formed word
durations), the encoder emits, for each word in order, the tag
followed by the word text and one trailing space, preceded by a single extra
literal space exactly when the word is not the first and its has_marker is
true; applied to a 1-word phrase it emits exactly one tag with no leading
injected space regardless of has_marker. -/
theorem create_karaoke_line_matches_claim (words : List AnnotatedWord)
    (h : ∀ w ∈ words, w.start ≤ w.stop) :
    create_karaoke_line words = karaoke_line_claim words := by
  cases words with
  | nil => rfl
  | cons w rest =>
    unfold create_karaoke_line karaoke_line_claim
    rw [List.enum_cons, List.foldl_cons]
    rw [karaoke_fold_tail rest 1 _ Nat.one_pos
      (fun u hu => h u (List.mem_cons_of_mem w hu))]
    have hpy : pyint ((w.stop - w.start) * 100) = ⌊(w.stop - w.start) * 100⌋ :=
      pyint_eq_floor _
        (mul_nonneg (sub_nonneg.2 (h w (List.mem_cons_self w rest))) (by norm_num))
    simp [hpy, karaoke_tag_claim, String.append_assoc]

theorem create_karaoke_line_matches_claim_witness :
    (∀ w ∈ ([⟨0, 1, "hello", true⟩] : List AnnotatedWord), w.start ≤ w.stop) ∧
    create_karaoke_line [⟨0, 1, "hello", true⟩] =
      karaoke_line_claim [⟨0, 1, "hello", true⟩] ∧
    create_karaoke_line [⟨0, 1, "hello", true⟩] = "\x7b\\K100\x7dhello " :=
  ⟨by with_unfolding_all decide,
    create_karaoke_line_matches_claim [⟨0, 1, "hello", true⟩]
      (by with_unfolding_all decide),
    by with_unfolding_all decide⟩

/-! ### The dialogue event and the time shift (claim C6) -/

/-- Modelled from the spec claim C6: the emitted dialogue event uses displayed
start max(0, phrase.start + shift_time), displayed end phrase.end unchanged,
and a lead-in tag carrying floor(-shift_time * 100). -/
def dialogue_event_claim (style_name : String) (shift_time : ℚ) (ph : Phrase) :
    String :=
  "Dialogue: 0," ++ format_time (max 0 (ph.start + shift_time)) ++ "," ++
    format_time ph.stop ++ "," ++ style_name ++ ",,0,0,0,," ++
    "\x7b\\K" ++ toString (⌊-shift_time * 100⌋ : ℤ) ++ "\x7d" ++
    create_karaoke_line ph.words

/-- Claim C6 (amended): for every phrase and every non-positive shift_time
(the documented usage), the emitted dialogue event has displayed start
max(0, phrase.start + shift_time), displayed end phrase.end unchanged, and
lead-in tag floor(-shift_time * 100); for positive fractional shifts the code
instead truncates toward zero. -/
theorem dialogue_event_matches_claim (style_name : String) (shift_time : ℚ)
    (ph : Phrase) (h : shift_time ≤ 0) :
    dialogue_event style_name shift_time ph =
      dialogue_event_claim style_name shift_time ph := by
  unfold dialogue_event dialogue_event_claim
  have harg : shift_time * (-100) = -shift_time * 100 := by ring
  rw [harg, pyint_eq_floor _ (mul_nonneg (neg_nonneg.2 h) (by norm_num))]
  simp only [String.append_assoc]

theorem dialogue_event_matches_claim_witness :
    ((-1/2 : ℚ) ≤ 0) ∧
    dialogue_event "Default" (-1/2) ⟨1/5, 1, [⟨1/5, 1, "hi", false⟩]⟩ =
      dialogue_event_claim "Default" (-1/2) ⟨1/5, 1, [⟨1/5, 1, "hi", false⟩]⟩ ∧
    dialogue_event "Default" (-1/2) ⟨1/5, 1, [⟨1/5, 1, "hi", false⟩]⟩ =
      "Dialogue: 0,0:00:00.00,0:00:01.00,Default,,0,0,0,,\x7b\\K50\x7d\x7b\\K80\x7dhi " :=
  ⟨by norm_num, dialogue_event_matches_claim _ _ _ (by norm_num),
    by with_unfolding_all decide⟩

/-- Claim C6 (counterexample): at shift_time = 0.015 the code's lead-in tag
truncates toward zero and emits -1 centiseconds, whereas the claim's floor
formula yields -2, so the emitted event differs from the claimed form. -/
theorem dialogue_event_shift_counterexample :
    dialogue_event "Default" (3/200) ⟨1, 2, [⟨1, 2, "a", false⟩]⟩ ≠
      dialogue_event_claim "Default" (3/200) ⟨1, 2, [⟨1, 2, "a", false⟩]⟩ ∧
    pyint ((3/200 : ℚ) * (-100)) = -1 ∧ (⌊-(3/200 : ℚ) * 100⌋ : ℤ) = -2 := by
  refine ⟨?_, ?_, ?_⟩
  · with_unfolding_all decide
  · with_unfolding_all decide
  · with_unfolding_all decide

/-! ### The output file (claims C7 and C8) -/

/-- Lines 199-219 of src/main.py: the fixed ASS header, with the style name
spliced into the first Style line. -/
def ass_header (style_name : String) : String :=
  "[Script Info]\n; Script generated by TextGrid to ASS Converter for Karaoke\nTitle: Karaoke from TextGrid\nScriptType: v4.00+\nWrapStyle: 0\nScaledBorderAndShadow: yes\nYCbCr Matrix: None\nPlayResX: 1920\nPlayResY: 1080\n\n[V4+ Styles]\nFormat: Name, Fontname, Fontsize, PrimaryColour, SecondaryColour, OutlineColour, BackColour, Bold, Italic, Underline, StrikeOut, ScaleX, ScaleY, Spacing, Angle, BorderStyle, Outline, Shadow, Alignment, MarginL, MarginR, MarginV, Encoding\nStyle: " ++
    style_name ++
    ",Arial,48,&H00FFFFFF,&H000000FF,&H00000000,&H80000000,1,0,0,0,100,100,0,0,1,2,2,2,10,10,40,1\nStyle: Voice1,Microsoft PhagsPa,80,&H00D58847,&H00FFFFFF,&H00000000,&H00000000,0,0,0,0,100,100,0,0,1,2,2,1,100,10,100,1\nStyle: Voice2,Microsoft PhagsPa,80,&H0092D8F9,&H00FFFFFF,&H00000000,&H00000000,0,0,0,0,100,100,0,0,1,2,2,3,10,100,10,1\nStyle: Line1,Microsoft PhagsPa,100,&H00FFDB00,&H00FFFFFF,&H00000000,&H00000000,0,0,0,0,100,100,0,0,1,2,2,1,100,10,170,1\nStyle: Line2,Microsoft PhagsPa,100,&H00FFDB00,&H00FFFFFF,&H00000000,&H00000000,0,0,0,0,100,100,0,0,1,2,2,3,0,100,50,1\n\n[Events]\nFormat: Layer, Start, End, Style, Name, MarginL, MarginR, MarginV, Effect, Text\n"

/-- Modelled from the source `main` (line 259 of src/main.py): argparse
declares the shift-time option with float type but NO default value, even
though its help text documents a default of 0.0; an omitted flag therefore
yields Python None, modelled here as `none`. -/
def default_shift_time : Option ℚ := none

/-- Lines 224-241 of src/main.py: build one Dialogue event per phrase.
Python computes `start + shift_time` and `shift_time * -100`, which raise
TypeError when shift_time is None and at least one phrase exists; this
failure is modelled by propagating `none`. -/
def create_ass_events (intervals : List Interval)
    (style_name phrase_marker : String) (min_phrase_gap target_duration : ℚ)
    (shift_time : Option ℚ) : Option (List String) :=
  (group_into_phrases intervals phrase_marker min_phrase_gap target_duration).mapM
    (fun ph => shift_time.map (fun s => dialogue_event style_name s ph))

/-- Lines 243-246 of src/main.py: the written file content is the header
followed by the newline-joined event lines. -/
def create_ass_file_content (intervals : List Interval)
    (style_name phrase_marker : String) (min_phrase_gap target_duration : ℚ)
    (shift_time : Option ℚ) : Option String :=
  (create_ass_events intervals style_name phrase_marker min_phrase_gap
      target_duration shift_time).map
    (fun events => ass_header style_name ++ String.intercalate "\n" events)

/-- Claim C7 (code bug): the command surface does not give the time-shift
parameter a default of 0.0; omitting it yields None (`default_shift_time`),
and converting a tier with at least one retained word then fails (none,
modelling the TypeError raised in create_ass_file) instead of behaving like
shift_time = 0.0, which succeeds. -/
theorem shift_time_default_crashes :
    create_ass_file_content [⟨0, 1, "hello"⟩] "Default" "<eps>" 2 5
        default_shift_time = none ∧
    (create_ass_file_content [⟨0, 1, "hello"⟩] "Default" "<eps>" 2 5
        (some 0)).isSome = true := by
  with_unfolding_all decide

theorem filter_all_skipped (phrase_marker : String) :
    ∀ intervals : List Interval,
    (∀ iv ∈ intervals, iv.text.trim = "" ∨ iv.text = "<p:>") →
    filter_intervals phrase_marker intervals = []
  | [], _ => rfl
  | iv :: ivs, h => by
    unfold filter_intervals
    simp only [List.filterMap_cons]
    have hk : keep_interval iv.text = false := by
      rcases h iv (List.mem_cons_self iv ivs) with h1 | h1 <;>
        simp [keep_interval, h1]
    rw [hk]
    simp only [Bool.false_eq_true, if_neg, not_false_eq_true]
    exact filter_all_skipped phrase_marker ivs
      (fun u hu => h u (List.mem_cons_of_mem iv hu))

/-- Claim C8: for every input tier in which zero words survive the filter
(every interval's text trims to empty or is the silence token), the
segmenter returns zero phrases and the produced file content is exactly the
fixed header with no Dialogue event lines, whatever the shift_time (even a
missing one); this path is not an error. -/
theorem empty_tier_header_only (intervals : List Interval)
    (style_name phrase_marker : String) (min_phrase_gap target_duration : ℚ)
    (shift_time : Option ℚ)
    (h : ∀ iv ∈ intervals, iv.text.trim = "" ∨ iv.text = "<p:>") :
    group_into_phrases intervals phrase_marker min_phrase_gap target_duration = [] ∧
    create_ass_file_content intervals style_name phrase_marker min_phrase_gap
        target_duration shift_time = some (ass_header style_name) := by
  have hgrp : group_into_phrases intervals phrase_marker min_phrase_gap
      target_duration = [] := by
    unfold group_into_phrases
    rw [filter_all_skipped phrase_marker intervals h]
    rfl
  refine ⟨hgrp, ?_⟩
  unfold create_ass_file_content create_ass_events
  rw [hgrp]
  show some (ass_header style_name ++ String.intercalate "\n" []) =
    some (ass_header style_name)
  rw [show String.intercalate "\n" ([] : List String) = "" from rfl,
    String.append_empty]

theorem empty_tier_header_only_witness :
    (∀ iv ∈ ([⟨0, 1, ""⟩, ⟨1, 2, "<p:>"⟩, ⟨2, 3, "  "⟩] : List Interval),
      iv.text.trim = "" ∨ iv.text = "<p:>") ∧
    (group_into_phrases [⟨0, 1, ""⟩, ⟨1, 2, "<p:>"⟩, ⟨2, 3, "  "⟩] "<eps>" 2 5 = [] ∧
      create_ass_file_content [⟨0, 1, ""⟩, ⟨1, 2, "<p:>"⟩, ⟨2, 3, "  "⟩]
          "Default" "<eps>" 2 5 none = some (ass_header "Default")) :=
  ⟨by with_unfolding_all decide,
    empty_tier_header_only _ "Default" "<eps>" 2 5 none
      (by with_unfolding_all decide)⟩

/-! ### Time formatting (claim C9) -/

theorem pymod_nonneg (x y : ℚ) (hy : 0 < y) : 0 ≤ pymod x y := by
  have h1 : ((⌊x / y⌋ : ℚ)) ≤ x / y := Int.floor_le _
  have h2 : y * ((⌊x / y⌋ : ℚ)) ≤ y * (x / y) := mul_le_mul_of_nonneg_left h1 hy.le
  have h3 : y * (x / y) = x := by field_simp
  unfold pymod
  linarith

theorem pymod_lt (x y : ℚ) (hy : 0 < y) : pymod x y < y := by
  have h1 : x / y < (⌊x / y⌋ : ℚ) + 1 := Int.lt_floor_add_one _
  have h2 : y * (x / y) < y * ((⌊x / y⌋ : ℚ) + 1) := by
    exact (mul_lt_mul_left hy).2 h1
  have h3 : y * (x / y) = x := by field_simp
  unfold pymod
  nlinarith

theorem emod_of_decomp (a b q r : ℤ) (h : a = b * q + r) (h0 : 0 ≤ r)
    (h1 : r < b) : a % b = r := by
  have h2 : a = r + b * q := by omega
  rw [h2, Int.add_mul_emod_self_left, Int.emod_eq_of_lt h0 h1]

/-- Claim C9: format_time renders seconds in the H:MM:SS.cc format — hours
H = floor(s/3600) unpadded, minutes floor(s/60) mod 60 and whole seconds
floor(s) mod 60 zero-padded to two digits, and centiseconds
floor(100 s) mod 100 truncated (not rounded) to two digits. -/
theorem format_time_fields (s : ℚ) (hs : 0 ≤ s) :
    format_time s =
      toString ⌊s / 3600⌋ ++ ":" ++ pad2 (⌊s / 60⌋ % 60) ++ ":" ++
        pad2 (⌊s⌋ % 60) ++ "." ++ pad2 (⌊s * 100⌋ % 100) := by
  have hh : pyint (s / 3600) = ⌊s / 3600⌋ :=
    pyint_eq_floor _ (div_nonneg hs (by norm_num))
  -- the minutes field
  have hq60 : ⌊pymod s 3600 / 60⌋ = ⌊s / 60⌋ - 60 * ⌊s / 3600⌋ := by
    have harg : pymod s 3600 / 60 = s / 60 - ((60 * ⌊s / 3600⌋ : ℤ) : ℚ) := by
      unfold pymod
      push_cast
      ring
    rw [harg, Int.floor_sub_int]
  have hminnn : (0 : ℚ) ≤ pymod s 3600 / 60 :=
    div_nonneg (pymod_nonneg s 3600 (by norm_num)) (by norm_num)
  have hminlt : pymod s 3600 / 60 < 60 := by
    have := pymod_lt s 3600 (by norm_num)
    rw [div_lt_iff₀ (by norm_num : (0 : ℚ) < 60)]
    linarith
  have hmin : pyint (pymod s 3600 / 60) = ⌊s / 60⌋ % 60 := by
    rw [pyint_eq_floor _ hminnn, hq60]
    symm
    refine emod_of_decomp _ 60 ⌊s / 3600⌋ _ (by ring) ?_ ?_
    · rw [← hq60]
      exact Int.floor_nonneg.2 hminnn
    · rw [← hq60]
      exact_mod_cast Int.floor_lt.2 (by exact_mod_cast hminlt)
  -- the seconds field
  have hq1 : ⌊pymod s 60⌋ = ⌊s⌋ - 60 * ⌊s / 60⌋ := by
    have harg : pymod s 60 = s - ((60 * ⌊s / 60⌋ : ℤ) : ℚ) := by
      unfold pymod
      push_cast
      ring
    rw [harg, Int.floor_sub_int]
  have hsecnn : (0 : ℚ) ≤ pymod s 60 := pymod_nonneg s 60 (by norm_num)
  have hseclt : pymod s 60 < 60 := pymod_lt s 60 (by norm_num)
  have hsec : pyint (pymod s 60) = ⌊s⌋ % 60 := by
    rw [pyint_eq_floor _ hsecnn, hq1]
    symm
    refine emod_of_decomp _ 60 ⌊s / 60⌋ _ (by ring) ?_ ?_
    · rw [← hq1]
      exact Int.floor_nonneg.2 hsecnn
    · rw [← hq1]
      exact_mod_cast Int.floor_lt.2 (by exact_mod_cast hseclt)
  -- the centiseconds field
  have hfrnn : (0 : ℚ) ≤ pymod s 60 - (⌊pymod s 60⌋ : ℚ) :=
    sub_nonneg.2 (Int.floor_le _)
  have hfrlt : pymod s 60 - (⌊pymod s 60⌋ : ℚ) < 1 :=
    sub_lt_iff_lt_add.2 (by simpa [add_comm] using Int.lt_floor_add_one (pymod s 60))
  have hcs2 : ⌊(pymod s 60 - (⌊pymod s 60⌋ : ℚ)) * 100⌋ = ⌊s * 100⌋ - 100 * ⌊s⌋ := by
    have harg : (pymod s 60 - (⌊pymod s 60⌋ : ℚ)) * 100 =
        pymod s 60 * 100 - ((100 * ⌊pymod s 60⌋ : ℤ) : ℚ) := by
      push_cast
      ring
    have harg2 : pymod s 60 * 100 = s * 100 - ((6000 * ⌊s / 60⌋ : ℤ) : ℚ) := by
      unfold pymod
      push_cast
      ring
    rw [harg, Int.floor_sub_int, harg2, Int.floor_sub_int, hq1]
    ring
  have hcs : pyint ((pymod s 60 - ((pyint (pymod s 60) : ℤ) : ℚ)) * 100) =
      ⌊s * 100⌋ % 100 := by
    rw [pyint_eq_floor _ hsecnn,
      pyint_eq_floor _ (mul_nonneg hfrnn (by norm_num)), hcs2]
    symm
    refine emod_of_decomp _ 100 ⌊s⌋ _ (by ring) ?_ ?_
    · rw [← hcs2]
      exact Int.floor_nonneg.2 (mul_nonneg hfrnn (by norm_num))
    · rw [← hcs2]
      refine Int.floor_lt.2 ?_
      push_cast
      nlinarith
  unfold format_time
  dsimp only
  rw [hh, hmin, hcs, hsec]

theorem format_time_fields_witness :
    (0 : ℚ) ≤ 3725678 / 1000 ∧ format_time (3725678 / 1000) = "1:02:05.67" := by
  refine ⟨by norm_num, ?_⟩
  rw [format_time_fields (3725678 / 1000) (by norm_num)]
  with_unfolding_all decide

/-! ### Marker-only words (claim C10) -/

/-- Claim C10: an interval whose text is exactly the phrase-marker string —
so it passes the emptiness/silence filter, is detected as marker-bearing,
and its text becomes empty after marker replacement and trimming — is kept
by the segmenter as a phrase word whose stored text is the empty string, and
the encoder still emits its highlight tag followed only by a space; the word
is not dropped at any stage. -/
theorem marker_only_word_retained (s e min_phrase_gap target_duration : ℚ)
    (marker : String) (h1 : keep_interval marker = true)
    (h2 : contains_sub marker marker = true)
    (h3 : clean_text marker marker = "") (h4 : s ≤ e) :
    group_into_phrases [⟨s, e, marker⟩] marker min_phrase_gap target_duration =
      [⟨s, e, [⟨s, e, "", true⟩]⟩] ∧
    create_karaoke_line [⟨s, e, "", true⟩] =
      "\x7b\\K" ++ toString (⌊(e - s) * 100⌋ : ℤ) ++ "\x7d" ++ " " := by
  constructor
  · unfold group_into_phrases
    have hfil : filter_intervals marker [⟨s, e, marker⟩] = [⟨s, e, marker, true⟩] := by
      unfold filter_intervals
      simp [h1, h2]
    rw [hfil, List.foldl_cons, List.foldl_nil]
    unfold segStep init_state
    simp [seg_flush, clean_word, h3]
  · have hpy : pyint ((e - s) * 100) = ⌊(e - s) * 100⌋ :=
      pyint_eq_floor _ (mul_nonneg (sub_nonneg.2 h4) (by norm_num))
    unfold create_karaoke_line
    simp only [List.enum_cons, List.enumFrom_nil, List.foldl_cons, List.foldl_nil]
    simp [hpy, String.append_assoc]

theorem marker_only_word_retained_witness :
    (keep_interval "<eps>" = true ∧ contains_sub "<eps>" "<eps>" = true ∧
      clean_text "<eps>" "<eps>" = "" ∧ (0 : ℚ) ≤ 1) ∧
    (group_into_phrases [⟨0, 1, "<eps>"⟩] "<eps>" 2 5 =
        [⟨0, 1, [⟨0, 1, "", true⟩]⟩] ∧
      create_karaoke_line [⟨0, 1, "", true⟩] =
        "\x7b\\K" ++ toString (⌊((1 : ℚ) - 0) * 100⌋ : ℤ) ++ "\x7d" ++ " ") :=
  ⟨⟨by with_unfolding_all decide, by with_unfolding_all decide,
      by with_unfolding_all decide, by norm_num⟩,
    marker_only_word_retained 0 1 2 5 "<eps>" (by with_unfolding_all decide)
      (by with_unfolding_all decide) (by with_unfolding_all decide) (by norm_num)⟩

end TGA
